import Mathlib

/-!
Verification of the `okp4-cognitarium` smart contract
(`src/contracts/okp4-cognitarium`): an append-only RDF triple store.

The development shallowly embeds the Rust sources:
* the canonical term model and the `TryFrom` conversions from the raw
  parsed (`rio_api`) model — `src/state/triples.rs`;
* the `IndexedMap` triple storage with its `subject_and_predicate`
  secondary index — `src/state/triples.rs`;
* the `instantiate`, `execute` (insertion pipeline) and `query` entry
  points — `src/contract.rs`.

Machine integers: `cosmwasm_std::Uint128` panics (aborts the call) on
overflow instead of wrapping, and all arithmetic in these code paths is
small counter increments, so counters are embedded as `Nat`.

Parts of the crate referenced by `src/contract.rs` but whose files are not
part of the provided sources (`error.rs`, `state.rs`, `rdf.rs`) are
modelled from the spec; each such definition carries a doc comment
starting with `Modelled from the spec:`.
-/

deriving instance DecidableEq for Except

namespace Cognitarium

/-! ### Errors -/

/-- Model of `cosmwasm_std::StdError`, restricted to the constructors the
embedded code paths can produce. -/
inductive StdError where
  | generic_err (msg : String)
  | not_found (ty : String)
deriving DecidableEq

/-- Modelled from the spec: `crate::error::StoreError`
(src/contracts/okp4-cognitarium/src/error.rs is not part of the provided
sources). Spec §4.1/§7: a violated ceiling yields a named error carrying
the configured value; the triple-count ceiling is the only one consulted
by the provided insertion code (`MaxTriplesLimitExceeded(max)` in
`contract.rs`). -/
inductive StoreError where
  | MaxTriplesLimitExceeded (max : Nat)
deriving DecidableEq

/-- Modelled from the spec: `crate::error::ContractError`
(src/contracts/okp4-cognitarium/src/error.rs is not part of the provided
sources). Spec §7 taxonomy; the variants are the ones `contract.rs` and
its tests name: `Std` (host/parse errors, `From<StdError>`),
`Unauthorized`, and the `From<StoreError>` wrapper. -/
inductive ContractError where
  | Std (e : StdError)
  | Unauthorized
  | Store (e : StoreError)
deriving DecidableEq

/-! ### Term model (`src/state/triples.rs`) -/

/-- Embedding of `state::Node`: an IRI exploded into a namespace and a value.
The Rust field `namespace` is a reserved word in Lean and is embedded as
`ns`. -/
structure Node where
  ns : String
  value : String
deriving DecidableEq

/-- Embedding of `state::Subject`. -/
inductive Subject where
  | Named (node : Node)
  | Blank (id : String)
deriving DecidableEq

/-- Alias `state::Predicate` for `Node`. -/
abbrev Predicate := Node

/-- Embedding of `state::Literal`. -/
inductive Literal where
  | Simple (value : String)
  | I18NString (value : String) (language : String)
  | Typed (value : String) (datatype : Node)
deriving DecidableEq

/-- Embedding of `state::Object`. -/
inductive Object where
  | Named (node : Node)
  | Blank (id : String)
  | Literal (l : Literal)
deriving DecidableEq

/-- Embedding of `state::Triple`. -/
structure Triple where
  subject : Subject
  predicate : Predicate
  object : Object
deriving DecidableEq

/-! ### Raw parsed model (`rio_api::model`)

The external parser produces raw triples in the `rio_api` model; its
subject and object positions may carry quoted (RDF-star) triples, which
is what the conversions reject. -/

/-- Embedding of `rio_api::model::NamedNode`. -/
structure RioNamedNode where
  iri : String

/-- Embedding of `rio_api::model::Literal`. -/
inductive RioLiteral where
  | Simple (value : String)
  | LanguageTaggedString (value : String) (language : String)
  | Typed (value : String) (datatype : RioNamedNode)

mutual
/-- Embedding of `rio_api::model::Subject`: named node, blank node, or a quoted
(RDF-star) triple. -/
inductive RioSubject where
  | NamedNode (node : RioNamedNode)
  | BlankNode (id : String)
  | Triple (t : RioTriple)

/-- Embedding of `rio_api::model::Term`: named node, blank node, literal, or a quoted
(RDF-star) triple. -/
inductive RioTerm where
  | NamedNode (node : RioNamedNode)
  | BlankNode (id : String)
  | Literal (l : RioLiteral)
  | Triple (t : RioTriple)

/-- Embedding of `rio_api::model::Triple`. -/
inductive RioTriple where
  | mk (subject : RioSubject) (predicate : RioNamedNode) (object : RioTerm)
end

/-- Subject position of a raw triple. -/
def RioTriple.subject : RioTriple → RioSubject
  | .mk s _ _ => s

/-- Predicate position of a raw triple. -/
def RioTriple.predicate : RioTriple → RioNamedNode
  | .mk _ p _ => p

/-- Object position of a raw triple. -/
def RioTriple.object : RioTriple → RioTerm
  | .mk _ _ o => o

/-- Whether a raw subject is a quoted (RDF-star) triple. -/
def RioSubject.isQuoted : RioSubject → Bool
  | .Triple _ => true
  | _ => false

/-- Whether a raw term is a quoted (RDF-star) triple. -/
def RioTerm.isQuoted : RioTerm → Bool
  | .Triple _ => true
  | _ => false

/-! ### IRI explosion and conversions -/

/-- IRI namespace separator characters. -/
def isIriSep (c : Char) : Bool := c = '#' || c = '/' || c = ':'

/-- Split a character list at its last namespace separator: the first
component keeps everything up to and including the last separator, the
second the remainder. -/
def splitLast : List Char → (List Char × List Char)
  | [] => ([], [])
  | c :: rest =>
    let p := splitLast rest
    if p.1.isEmpty then
      if isIriSep c then ([c], p.2) else ([], c :: p.2)
    else
      (c :: p.1, p.2)

/-- Modelled from the spec: `rdf::explode_iri`
(src/contracts/okp4-cognitarium/src/rdf.rs is not part of the provided
sources). Spec §3: a `Node` is "an IRI split at its last namespace
separator; invariant: `namespace + value` reconstructs the exact original
IRI". We split after the last occurrence of a separator character
(`'#'`, `'/'` or `':'`); an IRI without separator becomes pure value. The
spec attaches no failure to this step, so the function always succeeds;
the fallible signature mirrors its call sites in `src`. -/
def explode_iri (iri : String) : Except StdError (String × String) :=
  .ok (String.mk (splitLast iri.data).1, String.mk (splitLast iri.data).2)

/-- Embedding of `TryFrom<NamedNode> for Node` (`src/state/triples.rs`). -/
def Node.tryFrom (value : RioNamedNode) : Except StdError Node :=
  (explode_iri value.iri).map fun p => { ns := p.1, value := p.2 }

/-- Embedding of `TryFrom<rio_api::model::Subject> for Subject`
(`src/state/triples.rs`): quoted-triple subjects are rejected. -/
def Subject.tryFrom : RioSubject → Except StdError Subject
  | .NamedNode node => (Node.tryFrom node).map fun n => Subject.Named n
  | .BlankNode id => .ok (Subject.Blank id)
  | .Triple _ => .error (.generic_err "Not implemented")

/-- Embedding of `TryFrom<rio_api::model::Literal> for Literal`
(`src/state/triples.rs`). -/
def Literal.tryFrom : RioLiteral → Except StdError Literal
  | .Simple value => .ok (Literal.Simple value)
  | .LanguageTaggedString value language => .ok (Literal.I18NString value language)
  | .Typed value datatype => (Node.tryFrom datatype).map fun n => Literal.Typed value n

/-- Embedding of `TryFrom<rio_api::model::Term> for Object` (`src/state/triples.rs`):
quoted-triple (RDF-star) objects are rejected. -/
def Object.tryFrom : RioTerm → Except StdError Object
  | .BlankNode id => .ok (Object.Blank id)
  | .NamedNode node => (Node.tryFrom node).map fun n => Object.Named n
  | .Literal l => (Literal.tryFrom l).map fun x => Object.Literal x
  | .Triple _ => .error (.generic_err "RDF star syntax unsupported")

/-- Embedding of `TryFrom<rio_api::model::Triple> for Triple`
(`src/state/triples.rs`): converts subject, then predicate, then
object, propagating the first error. -/
def Triple.tryFrom (value : RioTriple) : Except StdError Triple :=
  match Subject.tryFrom value.subject with
  | .error e => .error e
  | .ok s =>
    match Node.tryFrom value.predicate with
    | .error e => .error e
    | .ok p =>
      match Object.tryFrom value.object with
      | .error e => .error e
      | .ok o => .ok { subject := s, predicate := p, object := o }

/-! ### `Object::as_hash` (`src/state/triples.rs`)

`as_hash` feeds a sequence of byte chunks to a `blake3::Hasher` (each
`update` appends bytes) and finalizes. `blake3` is an external library;
the final hash is a fixed deterministic function of the concatenated
input stream, so the embedding exposes that stream itself (markers are
single ASCII bytes, so string concatenation reproduces the byte
concatenation exactly). Equal streams yield equal blake3 hashes, hence
every equality below transfers to the real hashes. -/

/-- The exact byte stream `Object::as_hash` feeds to the blake3 hasher.
For a `Named` object the code hashes the marker and then the node's
`namespace` twice — the `value` field is never hashed. -/
def Object.as_hash : Object → String
  | .Named n => "n" ++ n.ns ++ n.ns
  | .Blank b => "b" ++ b
  | .Literal l =>
    "l" ++ match l with
      | .Simple value => "s" ++ value
      | .I18NString value language => "i" ++ value ++ language
      | .Typed value datatype => "t" ++ value ++ datatype.ns ++ datatype.value

/-! ### Store state (`state.rs`, modelled) and storage (`cw_storage_plus`) -/

/-- Modelled from the spec: `crate::state::StoreLimits`
(src/contracts/okp4-cognitarium/src/state.rs is not part of the provided
sources). Spec §3: "Limits (seven optional ceilings)"; §4.1 names them; a
ceiling of `None` means unbounded, matching the `Option` access
(`.filter`) in `contract.rs` and the `msg::StoreLimits` input fields. -/
structure StoreLimits where
  max_triple_count : Option Nat
  max_byte_size : Option Nat
  max_triple_byte_size : Option Nat
  max_query_limit : Option Nat
  max_query_variable_count : Option Nat
  max_insert_data_byte_size : Option Nat
  max_insert_data_triple_count : Option Nat
deriving DecidableEq

/-- Modelled from the spec: `crate::state::StoreStat` (state.rs is not
part of the provided sources). Spec §3: `Stat{triples_count}`; the
`proper_initialization` test shows the single `triples_count` field. -/
structure StoreStat where
  triples_count : Nat
deriving DecidableEq

/-- Modelled from the spec: `crate::state::Store` (state.rs is not part
of the provided sources). Spec §3: "{owner (fixed identity), Limits,
Stat{triples_count}}". -/
structure Store where
  owner : String
  limits : StoreLimits
  stat : StoreStat
deriving DecidableEq

/-- Modelled from the spec: `Store::new(owner, limits)` (state.rs is not
part of the provided sources). Spec §3 lifecycle: the store is created
with the given owner and limits; the `proper_initialization` test shows
`triples_count` starting at zero. -/
def Store.new (owner : String) (limits : StoreLimits) : Store :=
  { owner := owner, limits := limits, stat := { triples_count := 0 } }

/-- The contract's persistent storage: the `STORE` and
`TRIPLE_KEY_INCREMENT` items (`None` before they are first saved) and the
`triples()` `IndexedMap` — its primary entries ordered by key, plus the
entries of the `subject_and_predicate` `MultiIndex`. -/
structure StorageState where
  store : Option Store
  tripleKeyIncrement : Option Nat
  triples : List (Nat × Triple)
  index : List ((Subject × Predicate) × Nat)
deriving DecidableEq

/-- Fresh storage of a not-yet-instantiated contract instance. -/
def StorageState.empty : StorageState :=
  { store := none, tripleKeyIncrement := none, triples := [], index := [] }

/-- Embedding of `Item::load`: reading an item that was never saved is a
`StdError::NotFound`, lifted into `ContractError` by the `?` operator. -/
def itemLoad {α : Type} (item : Option α) (ty : String) : Except ContractError α :=
  match item with
  | some a => .ok a
  | none => .error (.Std (.not_found ty))

/-- Primary-map write of the host's ordered key-value store: entries are
kept in ascending key order (the `u128` keys are serialized big-endian,
so byte order is numeric order); writing an existing key replaces its
value. -/
def mapInsert (k : Nat) (v : Triple) : List (Nat × Triple) → List (Nat × Triple)
  | [] => [(k, v)]
  | (k', v') :: rest =>
    if k < k' then (k, v) :: (k', v') :: rest
    else if k = k' then (k, v) :: rest
    else (k', v') :: mapInsert k v rest

/-- Primary-map read. -/
def mapGet (k : Nat) : List (Nat × Triple) → Option Triple
  | [] => none
  | (k', v) :: rest => if k = k' then some v else mapGet k rest

/-- Index-map write: index keys are `((subject, predicate), pk)` storing
no data, so the write is a set insertion. -/
def indexAdd (e : (Subject × Predicate) × Nat)
    (l : List ((Subject × Predicate) × Nat)) : List ((Subject × Predicate) × Nat) :=
  if e ∈ l then l else l ++ [e]

/-- Embedding of `triples().save(storage, pk, triple)` (`cw_storage_plus::IndexedMap`
with the index of `src/state/triples.rs`): if an old value exists under
`pk` its index entry is removed, the primary entry is written, and the
index entry `((triple.subject, triple.predicate), pk)` is added —
mirroring the `subject_and_predicate` `MultiIndex` updated synchronously
with every save. -/
def triplesSave (pk : Nat) (t : Triple) (st : StorageState) : StorageState :=
  let idx := match mapGet pk st.triples with
    | some old => st.index.filter fun e => e ≠ ((old.subject, old.predicate), pk)
    | none => st.index
  { st with
    triples := mapInsert pk t st.triples,
    index := indexAdd ((t.subject, t.predicate), pk) idx }

/-! ### Messages and responses (`src/msg.rs`, `src/contract.rs`) -/

/-- Modelled from the spec: the external-parser boundary. Spec §1/§6: the
`DataInput` of `ExecuteMsg::InsertData` (a declared format plus a byte
payload) is reduced by an external parser — out of scope for this core —
to "a lazy sequence of raw (unvalidated) subject/predicate/object
triples". The embedding takes the insertion input at that boundary: a
stream of raw triples in which a malformed serialization surfaces as an
error item. -/
abbrev ParsedStream := List (Except StdError RioTriple)

/-- Embedding of `msg::InstantiateMsg`: the store limits (the state form keeps the
same seven optional ceilings, so the `.into()` conversion is the
identity here). -/
structure InstantiateMsg where
  limits : StoreLimits

/-- Embedding of `msg::ExecuteMsg`, with the `DataInput` payload replaced by the
external parser's output stream (see `ParsedStream`). -/
inductive ExecuteMsg where
  | InsertData (input : ParsedStream)

/-- Embedding of `cosmwasm_std::MessageInfo`, restricted to the sender address. -/
structure MessageInfo where
  sender : String
deriving DecidableEq

/-- Embedding of `cosmwasm_std::Response`: the attribute list built by
`add_attribute`. -/
structure Response where
  attributes : List (String × String)
deriving DecidableEq

/-- Embedding of `Response::new()` / `Response::default()`. -/
def Response.new : Response := { attributes := [] }

/-- Embedding of `Response::add_attribute`. -/
def Response.add_attribute (r : Response) (k v : String) : Response :=
  { attributes := r.attributes ++ [(k, v)] }

/-! ### Entry points (`src/contract.rs`) -/

/-- Embedding of `instantiate` (`src/contract.rs`): saves `Store::new(info.sender,
msg.limits.into())` under `STORE` and zero under
`TRIPLE_KEY_INCREMENT`. The `cw2::set_contract_version` bookkeeping
writes only version metadata and is not modelled. -/
def instantiate (storage : StorageState) (info : MessageInfo) (msg : InstantiateMsg) :
    Except ContractError (StorageState × Response) :=
  .ok ({ storage with
          store := some (Store.new info.sender msg.limits),
          tripleKeyIncrement := some 0 },
       Response.new)

/-- The mutable state captured by the closure passed to
`rdf::parse_triples` in `execute::insert`: the local `pk` counter, the
local `store` copy, and the host storage the `triples().save` calls
mutate. -/
structure InsertAcc where
  pk : Nat
  store : Store
  storage : StorageState
deriving DecidableEq

/-- The first closure of `execute::insert`:
`|triple| Ok(triple.try_into()?)` — the conversion's `StdError` is lifted
into `ContractError` by `?`. -/
def convertTriple (raw : RioTriple) : Except ContractError Triple :=
  (Triple.tryFrom raw).mapError ContractError.Std

/-- The second closure of `execute::insert`, applied to each mapped
result: on a conversion (or parse) error the error propagates; otherwise
`pk` and `triples_count` are incremented, the prospective count is
checked against `max_triple_count` (`max < count` fails with
`MaxTriplesLimitExceeded(max)` before anything is written for this
triple), and only then is the triple saved under `pk`. -/
def insertOne (acc : InsertAcc) (res : Except ContractError Triple) :
    Except ContractError Unit × InsertAcc :=
  match res with
  | .error e => (.error e, acc)
  | .ok triple =>
    let pk := acc.pk + 1
    let store := { acc.store with stat := { triples_count := acc.store.stat.triples_count + 1 } }
    match store.limits.max_triple_count with
    | some max =>
      if max < store.stat.triples_count then
        (.error (.Store (.MaxTriplesLimitExceeded max)), { acc with pk := pk, store := store })
      else
        (.ok (), { pk := pk, store := store, storage := triplesSave pk triple acc.storage })
    | none => (.ok (), { pk := pk, store := store, storage := triplesSave pk triple acc.storage })

/-- Modelled from the spec: `rdf::parse_triples`
(src/contracts/okp4-cognitarium/src/rdf.rs is not part of the provided
sources). Spec §1/§4.2/§6: the external parser yields a lazy sequence of
raw triples; each is mapped through `f` and the result handed to the
consumer `g`, stopping at the first error either reports. The consumer's
captured mutable state is threaded explicitly as `σ`, and the state at
the moment of failure is returned alongside the error, because the
consumer's storage writes up to that point have already happened. -/
def parse_triples {σ : Type} (input : ParsedStream)
    (f : RioTriple → Except ContractError Triple)
    (g : σ → Except ContractError Triple → Except ContractError Unit × σ)
    (s : σ) : Except ContractError Unit × σ :=
  match input with
  | [] => (.ok (), s)
  | item :: rest =>
    let res : Except ContractError Triple :=
      match item with
      | .ok raw => f raw
      | .error e => .error (.Std e)
    match g s res with
    | (.ok _, s') => parse_triples rest f g s'
    | (.error e, s') => (.error e, s')

/-- Embedding of `execute::insert` (`src/contract.rs`): load `STORE` and
`TRIPLE_KEY_INCREMENT`, stream the parsed triples through `insertOne`,
and only on full success save the final counter and store back and build
the response; on an error the items are left unsaved (the triples
written before the failure remain in the returned raw storage — the
host's transaction discards them, see `committed`). The paired
`StorageState` is the raw post-call storage. -/
def insert (storage : StorageState) (input : ParsedStream) :
    Except ContractError Response × StorageState :=
  match itemLoad storage.store "Store" with
  | .error e => (.error e, storage)
  | .ok store =>
    match itemLoad storage.tripleKeyIncrement "Uint128" with
    | .error e => (.error e, storage)
    | .ok pk =>
      let old_count := store.stat.triples_count
      match parse_triples input convertTriple insertOne
          { pk := pk, store := store, storage := storage } with
      | (.error e, acc) => (.error e, acc.storage)
      | (.ok _, acc) =>
        (.ok ((Response.new.add_attribute "action" "insert").add_attribute
              "inserted_count" (toString (acc.store.stat.triples_count - old_count))),
         { acc.storage with
            tripleKeyIncrement := some acc.pk,
            store := some acc.store })

/-- Embedding of `execute` (`src/contract.rs`): dispatches `InsertData` to
`execute::insert`. The `MessageInfo` argument is `_info` in the source —
it is received and ignored; in particular no owner check is performed
anywhere on this path. -/
def execute (storage : StorageState) (_info : MessageInfo) (msg : ExecuteMsg) :
    Except ContractError Response × StorageState :=
  match msg with
  | .InsertData input => insert storage input

/-- Modelled from the spec: the host's transactional call boundary. Spec
§5: "the host supplies the transactional boundary (any returned error
discards all writes from that call)"; on success the writes commit. -/
def committed (prior : StorageState)
    (result : Except ContractError Response × StorageState) :
    Except ContractError Response × StorageState :=
  match result with
  | (.ok r, st) => (.ok r, st)
  | (.error e, _) => (.error e, prior)

/-- One complete `execute` call as observed through the host boundary:
the committed storage is the raw post-call storage on success and the
prior storage on error. -/
def executeTx (storage : StorageState) (info : MessageInfo) (msg : ExecuteMsg) :
    Except ContractError Response × StorageState :=
  committed storage (execute storage info msg)

/-! ### Query messages (`src/msg.rs`) and the `query` entry point

The query-side message types live in `crate::msg`; they are embedded in
a `msg` namespace because their `Node`/`Literal` differ from the state
types of the same names. Rust field names that are reserved words in
Lean are renamed: `prefix → pfx`, `namespace → ns`, `where → wher`. -/

namespace msg

/-- Embedding of `msg::IRI`: a prefixed or a full IRI. -/
inductive IRI where
  | Prefixed (s : String)
  | Full (s : String)
deriving DecidableEq

/-- Embedding of `msg::Prefix`: a prefix and its namespace. -/
structure Pfx where
  pfx : String
  ns : String
deriving DecidableEq

/-- Embedding of `msg::Node`: a named node (IRI) or a blank node. -/
inductive Node where
  | NamedNode (iri : IRI)
  | BlankNode (id : String)
deriving DecidableEq

/-- Embedding of `msg::Literal`: simple, language-tagged, or typed. -/
inductive Literal where
  | Simple (s : String)
  | LanguageTaggedString (value : String) (language : String)
  | TypedValue (value : String) (datatype : IRI)
deriving DecidableEq

/-- Embedding of `msg::SelectItem`. -/
inductive SelectItem where
  | Variable (name : String)
deriving DecidableEq

/-- Embedding of `msg::SubjectPattern`. -/
inductive SubjectPattern where
  | Variable (name : String)
  | Node (n : Node)
deriving DecidableEq

/-- Embedding of `msg::PredicatePattern`. -/
inductive PredicatePattern where
  | Variable (name : String)
  | Node (n : Node)
deriving DecidableEq

/-- Embedding of `msg::ObjectPattern`. -/
inductive ObjectPattern where
  | Variable (name : String)
  | Node (n : Node)
  | Literal (l : Literal)
deriving DecidableEq

/-- Embedding of `msg::TriplePattern`. -/
structure TriplePattern where
  subject : SubjectPattern
  predicate : PredicatePattern
  object : ObjectPattern
deriving DecidableEq

/-- Embedding of `msg::SimpleWhereCondition`. -/
inductive SimpleWhereCondition where
  | TriplePattern (p : TriplePattern)
deriving DecidableEq

/-- Embedding of `msg::WhereCondition`. -/
inductive WhereCondition where
  | Simple (c : SimpleWhereCondition)
deriving DecidableEq

/-- Embedding of `msg::SelectQuery` (field `where` renamed to `wher`). -/
structure SelectQuery where
  prefixes : List Pfx
  select : List SelectItem
  wher : List WhereCondition
  limit : Option Nat
deriving DecidableEq

/-- Embedding of `msg::QueryMsg`. -/
inductive QueryMsg where
  | Select (query : SelectQuery)
deriving DecidableEq

/-- Embedding of `msg::Value`: a projected binding value. -/
inductive Value where
  | URI (value : IRI)
  | Literal (value : String) (lang : Option String) (datatype : Option IRI)
  | BlankNode (value : String)
deriving DecidableEq

/-- Embedding of `msg::Head`. -/
structure Head where
  vars : List String
deriving DecidableEq

/-- Embedding of `msg::Results` (the `BTreeMap` bindings embedded as association
lists). -/
structure Results where
  bindings : List (List (String × Value))
deriving DecidableEq

/-- Embedding of `msg::SelectResponse`. -/
structure SelectResponse where
  head : Head
  results : Results
deriving DecidableEq

end msg

/-- Embedding of `query` (`src/contract.rs`): the query entry point in the provided
sources ignores both the storage and the message and returns
`Err(StdError::generic_err("Not implemented"))` unconditionally. On
success it would return a serialized `msg::SelectResponse`; no success
path exists. -/
def query (_deps : StorageState) (_msg : msg.QueryMsg) :
    Except StdError msg.SelectResponse :=
  .error (.generic_err "Not implemented")

/-! ### Reachable states and the storage invariant -/

/-- Storage states reachable through the contract's life cycle: one
`instantiate` on fresh storage, followed by any sequence of committed
`InsertData` calls — successful or failed (a failed call commits the
prior state unchanged, see `committed`). -/
inductive Reachable : StorageState → Prop where
  | instantiated (info : MessageInfo) (m : InstantiateMsg) (st : StorageState) (r : Response) :
      instantiate StorageState.empty info m = .ok (st, r) → Reachable st
  | step (st : StorageState) (info : MessageInfo) (input : ParsedStream)
      (res : Except ContractError Response) (st' : StorageState) :
      Reachable st → executeTx st info (.InsertData input) = (res, st') → Reachable st'

/-- The storage invariant: both items are present, `triples_count`
equals the number of persisted triples, every persisted key and index
key is bounded by the committed key counter, keys are strictly
ascending, and every persisted triple has its `(subject, predicate)`
index entry. -/
def WellFormed (st : StorageState) : Prop :=
  ∃ s pk, st.store = some s ∧ st.tripleKeyIncrement = some pk ∧
    s.stat.triples_count = st.triples.length ∧
    (∀ e ∈ st.triples, e.1 ≤ pk) ∧
    List.Chain' (fun a b => a.1 < b.1) st.triples ∧
    (∀ e ∈ st.index, e.2 ≤ pk) ∧
    (∀ e ∈ st.triples, ((e.2.subject, e.2.predicate), e.1) ∈ st.index)

/-- Writing a key above every present key appends at the end of the
ordered primary map. -/
lemma mapInsert_eq_append (k : Nat) (v : Triple) :
    ∀ l : List (Nat × Triple), (∀ e ∈ l, e.1 < k) → mapInsert k v l = l ++ [(k, v)]
  | [], _ => rfl
  | (k', v') :: rest, h => by
    have hk' : k' < k := h (k', v') (by simp)
    simp only [mapInsert, if_neg (by omega : ¬ k < k'), if_neg (by omega : ¬ k = k'),
      List.cons_append, List.cons.injEq, true_and]
    exact mapInsert_eq_append k v rest fun e he => h e (by simp [he])

/-- Reading a key above every present key finds nothing. -/
lemma mapGet_eq_none (k : Nat) :
    ∀ l : List (Nat × Triple), (∀ e ∈ l, e.1 < k) → mapGet k l = none
  | [], _ => rfl
  | (k', v') :: rest, h => by
    have hk' : k' < k := h (k', v') (by simp)
    simp only [mapGet, if_neg (by omega : ¬ k = k')]
    exact mapGet_eq_none k rest fun e he => h e (by simp [he])

/-- Adding an index entry whose primary key is above every present
entry's appends it. -/
lemma indexAdd_eq_append (e : (Subject × Predicate) × Nat)
    (l : List ((Subject × Predicate) × Nat)) (h : ∀ x ∈ l, x.2 < e.2) :
    indexAdd e l = l ++ [e] := by
  unfold indexAdd
  rw [if_neg]
  intro hmem
  exact absurd (h e hmem) (by omega)

/-- Embedding of `triples().save` under a fresh key (above every present primary and
index key) appends the primary entry and its index entry. -/
lemma triplesSave_fresh (pk : Nat) (t : Triple) (st : StorageState)
    (htr : ∀ e ∈ st.triples, e.1 < pk) (hix : ∀ e ∈ st.index, e.2 < pk) :
    triplesSave pk t st =
      { st with triples := st.triples ++ [(pk, t)],
                index := st.index ++ [((t.subject, t.predicate), pk)] } := by
  have h1 := mapGet_eq_none pk st.triples htr
  have h2 := mapInsert_eq_append pk t st.triples htr
  have h3 := indexAdd_eq_append ((t.subject, t.predicate), pk) st.index hix
  simp only [triplesSave, h1, h2, h3]

/-- Appending an element whose key is above every present key preserves
the strictly-ascending chain. -/
lemma chain'_append_singleton (l : List (Nat × Triple)) (x : Nat × Triple)
    (hc : List.Chain' (fun a b => a.1 < b.1) l) (h : ∀ e ∈ l, e.1 < x.1) :
    List.Chain' (fun a b => a.1 < b.1) (l ++ [x]) := by
  rw [List.chain'_append]
  refine ⟨hc, List.chain'_singleton x, ?_⟩
  intro y hy z hz
  have hyl : y ∈ l := List.mem_of_mem_getLast? hy
  obtain rfl : x = z := by simpa using hz
  exact h y hyl

/-- The invariant carried through the insertion loop by the closure
state. -/
def InvAcc (acc : InsertAcc) : Prop :=
  acc.store.stat.triples_count = acc.storage.triples.length ∧
  (∀ e ∈ acc.storage.triples, e.1 ≤ acc.pk) ∧
  List.Chain' (fun a b => a.1 < b.1) acc.storage.triples ∧
  (∀ e ∈ acc.storage.index, e.2 ≤ acc.pk) ∧
  (∀ e ∈ acc.storage.triples, ((e.2.subject, e.2.predicate), e.1) ∈ acc.storage.index)

/-- Effect of one successful `insertOne` application on the closure
state: the key and count advance by one and the triple is appended under
the fresh key. -/
lemma insertOne_ok_shape (acc acc' : InsertAcc) (res : Except ContractError Triple)
    (h : insertOne acc res = (.ok (), acc'))
    (hkeys : ∀ e ∈ acc.storage.triples, e.1 ≤ acc.pk)
    (hix : ∀ e ∈ acc.storage.index, e.2 ≤ acc.pk) :
    ∃ t, res = .ok t ∧
      acc' = { pk := acc.pk + 1,
               store := { acc.store with
                 stat := { triples_count := acc.store.stat.triples_count + 1 } },
               storage := { acc.storage with
                 triples := acc.storage.triples ++ [(acc.pk + 1, t)],
                 index := acc.storage.index ++ [((t.subject, t.predicate), acc.pk + 1)] } } := by
  cases res with
  | error e => simp [insertOne] at h
  | ok t =>
    refine ⟨t, rfl, ?_⟩
    have hsave := triplesSave_fresh (acc.pk + 1) t acc.storage
      (fun e he => Nat.lt_succ_of_le (hkeys e he))
      (fun e he => Nat.lt_succ_of_le (hix e he))
    rcases hmax : acc.store.limits.max_triple_count with - | max
    · simp only [insertOne, hmax] at h
      injection h with h1 h2
      rw [← h2]
      simp [hsave]
    · simp only [insertOne, hmax] at h
      by_cases hlt : max < acc.store.stat.triples_count + 1
      · simp [hlt] at h
      · simp only [if_neg hlt] at h
        injection h with h1 h2
        rw [← h2]
        simp [hsave]

/-- Invariant preservation through the whole insertion loop: a
successful run preserves `InvAcc`, only advances the key counter, leaves
owner, limits and the stored items untouched, and appends the new
triples after the existing ones under keys above the initial counter. -/
lemma parse_ok_inv (input : ParsedStream) :
    ∀ acc acc' : InsertAcc,
      parse_triples input convertTriple insertOne acc = (.ok (), acc') →
      InvAcc acc →
      InvAcc acc' ∧ acc.pk ≤ acc'.pk ∧
      acc'.store.owner = acc.store.owner ∧
      acc'.store.limits = acc.store.limits ∧
      acc'.storage.store = acc.storage.store ∧
      acc'.storage.tripleKeyIncrement = acc.storage.tripleKeyIncrement ∧
      ∃ new, acc'.storage.triples = acc.storage.triples ++ new ∧
        ∀ e ∈ new, acc.pk < e.1 := by
  induction input with
  | nil =>
    intro acc acc' h hinv
    simp only [parse_triples] at h
    injection h with h1 h2
    subst h2
    exact ⟨hinv, Nat.le_refl _, rfl, rfl, rfl, rfl, [], by simp, by simp⟩
  | cons item rest ih =>
    intro acc acc' h hinv
    cases item with
    | error e => simp [parse_triples, insertOne] at h
    | ok raw =>
      simp only [parse_triples] at h
      rcases hstep : insertOne acc (convertTriple raw) with ⟨r0, acc1⟩
      rw [hstep] at h
      cases r0 with
      | error e => simp at h
      | ok u =>
        cases u
        obtain ⟨hcnt, hkeys, hchain, hixb, hmem⟩ := hinv
        obtain ⟨t, -, hacc1⟩ := insertOne_ok_shape acc acc1 (convertTriple raw) hstep hkeys hixb
        subst hacc1
        simp only at h
        have hinv1 : InvAcc
            { pk := acc.pk + 1,
              store := { acc.store with
                stat := { triples_count := acc.store.stat.triples_count + 1 } },
              storage := { acc.storage with
                triples := acc.storage.triples ++ [(acc.pk + 1, t)],
                index := acc.storage.index ++ [((t.subject, t.predicate), acc.pk + 1)] } } := by
          refine ⟨by simp [hcnt], ?_, ?_, ?_, ?_⟩
          · intro e he
            rcases List.mem_append.mp he with h1 | h2
            · exact Nat.le_succ_of_le (hkeys e h1)
            · rw [List.mem_singleton.mp h2]
          · exact chain'_append_singleton _ _ hchain
              fun e he => Nat.lt_succ_of_le (hkeys e he)
          · intro e he
            rcases List.mem_append.mp he with h1 | h2
            · exact Nat.le_succ_of_le (hixb e h1)
            · rw [List.mem_singleton.mp h2]
          · intro e he
            rcases List.mem_append.mp he with h1 | h2
            · exact List.mem_append_left _ (hmem e h1)
            · rw [List.mem_singleton.mp h2]
              exact List.mem_append_right _ (List.mem_singleton.mpr rfl)
        obtain ⟨hinv', hpk', howner', hlim', hst', htki', new', hnew', hbound'⟩ :=
          ih _ acc' h hinv1
        refine ⟨hinv', by simpa using Nat.le_trans (Nat.le_succ _) hpk',
          by simpa using howner', by simpa using hlim',
          by simpa using hst', by simpa using htki',
          (acc.pk + 1, t) :: new', ?_, ?_⟩
        · rw [hnew']
          simp
        · intro e he
          rcases List.mem_cons.mp he with rfl | h2
          · exact Nat.lt_succ_self _
          · have := hbound' e h2
            simp only at this
            omega

/-- Shape of a successful `execute::insert`: the loaded store and
counter, the successful loop run, and the final saves. -/
lemma insert_ok_shape (st : StorageState) (input : ParsedStream) (r : Response)
    (st' : StorageState) (h : insert st input = (.ok r, st')) :
    ∃ s pk acc', st.store = some s ∧ st.tripleKeyIncrement = some pk ∧
      parse_triples input convertTriple insertOne
        { pk := pk, store := s, storage := st } = (.ok (), acc') ∧
      st' = { acc'.storage with
        tripleKeyIncrement := some acc'.pk, store := some acc'.store } ∧
      r = (Response.new.add_attribute "action" "insert").add_attribute
            "inserted_count"
            (toString (acc'.store.stat.triples_count - s.stat.triples_count)) := by
  rcases hs : st.store with - | s
  · simp [Cognitarium.insert, itemLoad, hs] at h
  rcases hpk : st.tripleKeyIncrement with - | pk
  · simp [Cognitarium.insert, itemLoad, hs, hpk] at h
  simp only [Cognitarium.insert, itemLoad, hs, hpk] at h
  rcases hp : parse_triples input convertTriple insertOne
      { pk := pk, store := s, storage := st } with ⟨r0, acc'⟩
  rw [hp] at h
  cases r0 with
  | error e => simp at h
  | ok u =>
    cases u
    simp only at h
    injection h with h1 h2
    injection h1 with h1
    exact ⟨s, pk, acc', rfl, rfl, hp, h2.symm, h1.symm⟩

/-- A committed, successful `InsertData` call is exactly a successful
raw `execute::insert`. -/
lemma executeTx_ok (st : StorageState) (info : MessageInfo) (input : ParsedStream)
    (r : Response) (st' : StorageState)
    (h : executeTx st info (.InsertData input) = (.ok r, st')) :
    insert st input = (.ok r, st') := by
  simp only [executeTx, committed, execute] at h
  rcases he : insert st input with ⟨res, st2⟩
  rw [he] at h
  cases res with
  | error e => simp at h
  | ok r2 => simpa using h

/-- Every reachable storage state satisfies the invariant. -/
lemma Reachable.wellFormed : ∀ {st : StorageState}, Reachable st → WellFormed st := by
  intro st h
  induction h with
  | instantiated info m st r hinst =>
    simp only [instantiate] at hinst
    injection hinst with h1
    injection h1 with h1 h2
    rw [← h1]
    exact ⟨Store.new info.sender m.limits, 0, rfl, rfl, rfl,
      by simp [StorageState.empty], by simp [StorageState.empty],
      by simp [StorageState.empty], by simp [StorageState.empty]⟩
  | step st info input res st' hreach hexec ihwf =>
    cases res with
    | error e =>
      simp only [executeTx, committed, execute] at hexec
      rcases he : insert st input with ⟨res2, st2⟩
      rw [he] at hexec
      cases res2 with
      | error e2 =>
        simp only at hexec
        injection hexec with h1 h2
        rw [← h2]
        exact ihwf
      | ok r2 => simp at hexec
    | ok r =>
      have hins := executeTx_ok st info input r st' hexec
      obtain ⟨s, pk, acc', hs, hpk, hloop, hst', -⟩ := insert_ok_shape st input r st' hins
      obtain ⟨s0, pk0, hs0, hpk0, hcnt0, hkeys0, hchain0, hixb0, hmem0⟩ := ihwf
      have hseq : s0 = s := by rw [hs] at hs0; injection hs0 with h1; exact h1.symm
      have hpkeq : pk0 = pk := by rw [hpk] at hpk0; injection hpk0 with h1; exact h1.symm
      subst hseq hpkeq
      have hinv0 : InvAcc { pk := pk0, store := s0, storage := st } :=
        ⟨hcnt0, hkeys0, hchain0, hixb0, hmem0⟩
      obtain ⟨⟨hc1, hc2, hc3, hc4, hc5⟩, -, -, -, -, -, -⟩ :=
        parse_ok_inv input _ acc' hloop hinv0
      subst hst'
      exact ⟨acc'.store, acc'.pk, rfl, rfl, hc1, hc2, hc3, hc4, hc5⟩

/-! ### Evaluation lemmas for the conversions -/

/-- Converting a raw named node always succeeds, with the IRI exploded
at its last separator. -/
lemma node_tryFrom_ok (n : RioNamedNode) :
    Node.tryFrom n = .ok { ns := String.mk (splitLast n.iri.data).1,
                           value := String.mk (splitLast n.iri.data).2 } := rfl

/-- Converting a raw literal always succeeds. -/
lemma literal_tryFrom_ok : ∀ l : RioLiteral, ∃ x, Literal.tryFrom l = .ok x
  | .Simple v => ⟨Literal.Simple v, rfl⟩
  | .LanguageTaggedString v lg => ⟨Literal.I18NString v lg, rfl⟩
  | .Typed v dt =>
    ⟨Literal.Typed v
      { ns := String.mk (splitLast dt.iri.data).1,
        value := String.mk (splitLast dt.iri.data).2 }, rfl⟩

/-! ### Shared concrete sample data for the witnesses -/

/-- A concrete raw triple of three named nodes. -/
def rawEx : RioTriple :=
  RioTriple.mk (RioSubject.NamedNode { iri := "http://a/s1" }) { iri := "http://a/p1" }
    (RioTerm.NamedNode { iri := "http://a/o1" })

/-- The canonical form of `rawEx`. -/
def tripleEx : Triple :=
  { subject := Subject.Named { ns := "http://a/", value := "s1" },
    predicate := { ns := "http://a/", value := "p1" },
    object := Object.Named { ns := "http://a/", value := "o1" } }

/-- Store limits with every ceiling unset. -/
def noLimits : StoreLimits := ⟨none, none, none, none, none, none, none⟩

/-- Storage immediately after instantiation by `"owner"` with
`noLimits`. -/
def stInit : StorageState :=
  { store := some (Store.new "owner" noLimits), tripleKeyIncrement := some 0,
    triples := [], index := [] }

/-- Storage after additionally inserting `rawEx` once. -/
def stOne : StorageState :=
  { store := some { owner := "owner", limits := noLimits, stat := { triples_count := 1 } },
    tripleKeyIncrement := some 1,
    triples := [(1, tripleEx)],
    index := [((tripleEx.subject, tripleEx.predicate), 1)] }

/-- The state `stOne` is reachable: instantiate as `"owner"`, then insert
`rawEx`. -/
lemma reachable_stOne : Reachable stOne :=
  Reachable.step stInit { sender := "owner" } [.ok rawEx]
    (.ok { attributes := [("action", "insert"), ("inserted_count", "1")] }) stOne
    (Reachable.instantiated { sender := "owner" } { limits := noLimits } stInit
      Response.new rfl)
    (by decide)

/-! ### Claim theorems -/

/-- C7: converting a raw parsed triple into the canonical term model
fails exactly when the triple contains an unsupported construct — a
quoted (RDF-star) subject or object; every named node, blank node and
literal (simple, language-tagged or typed) converts successfully. -/
theorem tryFrom_error_iff_quoted (t : RioTriple) :
    (∃ e, Triple.tryFrom t = .error e) ↔
      t.subject.isQuoted = true ∨ t.object.isQuoted = true := by
  obtain ⟨s, p, o⟩ := t
  cases s with
  | Triple st' =>
    simp [Triple.tryFrom, Subject.tryFrom, RioTriple.subject, RioTriple.object,
      RioSubject.isQuoted]
  | NamedNode n =>
    cases o with
    | Triple ot' =>
      simp [Triple.tryFrom, Subject.tryFrom, Object.tryFrom, RioTriple.subject,
        RioTriple.predicate, RioTriple.object, RioSubject.isQuoted, RioTerm.isQuoted,
        node_tryFrom_ok, Except.map]
    | NamedNode n2 =>
      simp [Triple.tryFrom, Subject.tryFrom, Object.tryFrom, RioTriple.subject,
        RioTriple.predicate, RioTriple.object, RioSubject.isQuoted, RioTerm.isQuoted,
        node_tryFrom_ok, Except.map]
    | BlankNode b =>
      simp [Triple.tryFrom, Subject.tryFrom, Object.tryFrom, RioTriple.subject,
        RioTriple.predicate, RioTriple.object, RioSubject.isQuoted, RioTerm.isQuoted,
        node_tryFrom_ok, Except.map]
    | Literal l =>
      obtain ⟨x, hx⟩ := literal_tryFrom_ok l
      simp [Triple.tryFrom, Subject.tryFrom, Object.tryFrom, RioTriple.subject,
        RioTriple.predicate, RioTriple.object, RioSubject.isQuoted, RioTerm.isQuoted,
        node_tryFrom_ok, Except.map, hx]
  | BlankNode b =>
    cases o with
    | Triple ot' =>
      simp [Triple.tryFrom, Subject.tryFrom, Object.tryFrom, RioTriple.subject,
        RioTriple.predicate, RioTriple.object, RioSubject.isQuoted, RioTerm.isQuoted,
        node_tryFrom_ok, Except.map]
    | NamedNode n2 =>
      simp [Triple.tryFrom, Subject.tryFrom, Object.tryFrom, RioTriple.subject,
        RioTriple.predicate, RioTriple.object, RioSubject.isQuoted, RioTerm.isQuoted,
        node_tryFrom_ok, Except.map]
    | BlankNode b2 =>
      simp [Triple.tryFrom, Subject.tryFrom, Object.tryFrom, RioTriple.subject,
        RioTriple.predicate, RioTriple.object, RioSubject.isQuoted, RioTerm.isQuoted,
        node_tryFrom_ok, Except.map]
    | Literal l =>
      obtain ⟨x, hx⟩ := literal_tryFrom_ok l
      simp [Triple.tryFrom, Subject.tryFrom, Object.tryFrom, RioTriple.subject,
        RioTriple.predicate, RioTriple.object, RioSubject.isQuoted, RioTerm.isQuoted,
        node_tryFrom_ok, Except.map, hx]

/-- C10: the hash input of `Object::as_hash` for a `Named` object
incorporates the node's namespace twice and its value never, so two
named objects with equal namespaces hash identically whatever their
values — and `as_hash` is therefore not injective on named objects. -/
theorem as_hash_named_ignores_value :
    (∀ n1 n2 : Node, n1.ns = n2.ns →
      Object.as_hash (Object.Named n1) = Object.as_hash (Object.Named n2)) ∧
    ∃ n1 n2 : Node, n1 ≠ n2 ∧
      Object.as_hash (Object.Named n1) = Object.as_hash (Object.Named n2) := by
  constructor
  · intro n1 n2 h
    simp only [Object.as_hash, h]
  · exact ⟨{ ns := "http://a/", value := "x" }, { ns := "http://a/", value := "y" },
      by decide, rfl⟩

/-- C5: contrary to the claim, a Select query over a store holding
exactly the triple `(s1, p1, o1)`, with the single where pattern
`{Variable "s", Node p1, Variable "o"}` and select list `["s", "o"]`,
does not return a binding: the `query` entry point in the source is a
stub returning `StdError::generic_err "Not implemented"` for every
query. -/
theorem select_single_pattern_not_implemented :
    query
      { store := some { owner := "owner", limits := noLimits, stat := { triples_count := 1 } },
        tripleKeyIncrement := some 1,
        triples := [(1, tripleEx)],
        index := [((tripleEx.subject, tripleEx.predicate), 1)] }
      (msg.QueryMsg.Select
        { prefixes := [],
          select := [msg.SelectItem.Variable "s", msg.SelectItem.Variable "o"],
          wher := [msg.WhereCondition.Simple (msg.SimpleWhereCondition.TriplePattern
            { subject := msg.SubjectPattern.Variable "s",
              predicate := msg.PredicatePattern.Node
                (msg.Node.NamedNode (msg.IRI.Full "http://a/p1")),
              object := msg.ObjectPattern.Variable "o" })],
          limit := none }) =
      .error (.generic_err "Not implemented") := rfl

/-- C1: contrary to the claim (and to the contract's own
`insert_unauthorized` test and the `InsertData` documentation), `execute`
ignores the message sender entirely — it never returns `Unauthorized`:
the result of any call is independent of the sender, and a concrete
`InsertData` call from `"not-owner"` on a store instantiated by
`"owner"` succeeds and persists the triple. -/
theorem insert_by_non_owner_not_rejected :
    (∀ (st : StorageState) (i1 i2 : MessageInfo) (m : ExecuteMsg),
        execute st i1 m = execute st i2 m) ∧
    executeTx stInit { sender := "not-owner" } (.InsertData [.ok rawEx]) =
      (.ok { attributes := [("action", "insert"), ("inserted_count", "1")] }, stOne) :=
  ⟨fun _ _ _ _ => rfl, by decide⟩

/-- C2: an `InsertData` (or any execute) call that returns an error
commits nothing: the storage visible after the call is exactly the
storage before it — in particular no triple written by the failed call
remains observable and the committed key counter and `triples_count` are
unchanged. -/
theorem error_call_commits_nothing (st : StorageState) (info : MessageInfo)
    (m : ExecuteMsg) (e : ContractError)
    (h : (execute st info m).1 = .error e) :
    executeTx st info m = (.error e, st) := by
  rcases hex : execute st info m with ⟨res, st2⟩
  rw [hex] at h
  cases res with
  | error e2 =>
    obtain rfl : e2 = e := by simpa using h
    simp only [executeTx, committed, hex]
  | ok r => simp at h

/-- Witness for `error_call_commits_nothing`: a batch whose stream
carries a parse error aborts with that error and commits nothing. -/
theorem error_call_commits_nothing_witness :
    (execute stInit { sender := "owner" }
        (.InsertData [.error (.generic_err "malformed")])).1 =
      .error (.Std (.generic_err "malformed")) ∧
    executeTx stInit { sender := "owner" }
        (.InsertData [.error (.generic_err "malformed")]) =
      (.error (.Std (.generic_err "malformed")), stInit) :=
  ⟨by decide,
   error_call_commits_nothing stInit { sender := "owner" }
     (.InsertData [.error (.generic_err "malformed")])
     (.Std (.generic_err "malformed")) (by decide)⟩

/-- C8: an `InsertData` call whose payload parses to zero triples
succeeds, commits the key counter, `triples_count`, triples and index
unchanged, and reports `inserted_count = 0`. -/
theorem insert_empty_input_noop (st : StorageState) (s : Store) (pk : Nat)
    (info : MessageInfo) (hstore : st.store = some s)
    (hpk : st.tripleKeyIncrement = some pk) :
    executeTx st info (.InsertData []) =
      (.ok { attributes := [("action", "insert"), ("inserted_count", "0")] }, st) := by
  obtain ⟨os, otki, otr, oix⟩ := st
  simp only at hstore hpk
  subst hstore hpk
  simp only [executeTx, committed, execute, Cognitarium.insert, itemLoad,
    parse_triples, Nat.sub_self, Response.new, Response.add_attribute]
  rfl

/-- Witness for `insert_empty_input_noop` at the one-triple store. -/
theorem insert_empty_input_noop_witness :
    executeTx stOne { sender := "owner" } (.InsertData []) =
      (.ok { attributes := [("action", "insert"), ("inserted_count", "0")] }, stOne) :=
  insert_empty_input_noop stOne
    { owner := "owner", limits := noLimits, stat := { triples_count := 1 } } 1
    { sender := "owner" } rfl rfl

/-- C3: in every reachable committed state (instantiation followed
by any sequence of `InsertData` calls), `triples_count` equals the
number of persisted triples, and every persisted triple has its entry
under its `(subject, predicate)` pair in the `subject_and_predicate`
secondary index. -/
theorem triples_count_matches_and_indexed (st : StorageState) (h : Reachable st) :
    (∃ s, st.store = some s ∧ s.stat.triples_count = st.triples.length) ∧
    ∀ e ∈ st.triples, ((e.2.subject, e.2.predicate), e.1) ∈ st.index := by
  obtain ⟨s, pk, h1, -, h3, -, -, -, h7⟩ := h.wellFormed
  exact ⟨⟨s, h1, h3⟩, h7⟩

/-- Witness for `triples_count_matches_and_indexed` at the reachable
one-triple store. -/
theorem triples_count_matches_and_indexed_witness :
    (∃ s, stOne.store = some s ∧ s.stat.triples_count = stOne.triples.length) ∧
    ∀ e ∈ stOne.triples, ((e.2.subject, e.2.predicate), e.1) ∈ stOne.index :=
  triples_count_matches_and_indexed stOne reachable_stOne

/-- C6: in every reachable committed state the persisted primary
keys are strictly increasing in iteration order, and every further
successful `InsertData` call only appends, under keys strictly above all
previously persisted ones — so keys are never reused and ascending-key
iteration yields insertion order. -/
theorem primary_keys_ascending_append_only (st : StorageState) (h : Reachable st) :
    List.Chain' (fun a b => a.1 < b.1) st.triples ∧
    ∀ (info : MessageInfo) (input : ParsedStream) (r : Response) (st' : StorageState),
      executeTx st info (.InsertData input) = (.ok r, st') →
      ∃ new, st'.triples = st.triples ++ new ∧
        ∀ e ∈ new, ∀ e2 ∈ st.triples, e2.1 < e.1 := by
  obtain ⟨s, pk, hs, hpk, hcnt, hkeys, hchain, hixb, hmem⟩ := h.wellFormed
  refine ⟨hchain, ?_⟩
  intro info input r st' hex
  have hins := executeTx_ok st info input r st' hex
  obtain ⟨s2, pk2, acc', hs2, hpk2, hloop, hst', -⟩ := insert_ok_shape st input r st' hins
  obtain rfl : s = s2 := by rw [hs] at hs2; injection hs2
  obtain rfl : pk = pk2 := by rw [hpk] at hpk2; injection hpk2
  have hinv0 : InvAcc { pk := pk, store := s, storage := st } :=
    ⟨hcnt, hkeys, hchain, hixb, hmem⟩
  obtain ⟨-, -, -, -, -, -, new, hnew, hbound⟩ := parse_ok_inv input _ acc' hloop hinv0
  subst hst'
  refine ⟨new, by simpa using hnew, ?_⟩
  intro e he e2 he2
  have h1 : pk < e.1 := by simpa using hbound e he
  have h2 : e2.1 ≤ pk := hkeys e2 he2
  omega

/-- Witness for `primary_keys_ascending_append_only` at the reachable
one-triple store. -/
theorem primary_keys_ascending_append_only_witness :
    List.Chain' (fun a b => a.1 < b.1) stOne.triples ∧
    ∀ (info : MessageInfo) (input : ParsedStream) (r : Response) (st' : StorageState),
      executeTx stOne info (.InsertData input) = (.ok r, st') →
      ∃ new, st'.triples = stOne.triples ++ new ∧
        ∀ e ∈ new, ∀ e2 ∈ stOne.triples, e2.1 < e.1 :=
  primary_keys_ascending_append_only stOne reachable_stOne

/-- C9: the insertion path performs no content-based deduplication
(despite the `InsertData` documentation calling duplicate inserts a
no-op): inserting a triple structurally equal to an already persisted
one appends a second copy under the fresh key `pk + 1` and increments
`triples_count`, leaving both copies present. -/
theorem duplicate_insert_appends (st : StorageState) (s : Store) (pk k0 : Nat)
    (info : MessageInfo) (raw : RioTriple) (t : Triple)
    (hstore : st.store = some s) (hpk : st.tripleKeyIncrement = some pk)
    (hlim : s.limits.max_triple_count = none)
    (ht : Triple.tryFrom raw = .ok t)
    (hdup : (k0, t) ∈ st.triples)
    (hkeys : ∀ e ∈ st.triples, e.1 ≤ pk)
    (hidx : ∀ e ∈ st.index, e.2 ≤ pk) :
    executeTx st info (.InsertData [.ok raw]) =
      (.ok { attributes := [("action", "insert"), ("inserted_count", "1")] },
       { st with
          store := some { s with stat := { triples_count := s.stat.triples_count + 1 } },
          tripleKeyIncrement := some (pk + 1),
          triples := st.triples ++ [(pk + 1, t)],
          index := st.index ++ [((t.subject, t.predicate), pk + 1)] }) ∧
    (k0, t) ∈ st.triples ++ [(pk + 1, t)] ∧
    (pk + 1, t) ∈ st.triples ++ [(pk + 1, t)] := by
  have hsave := triplesSave_fresh (pk + 1) t st
    (fun e he => Nat.lt_succ_of_le (hkeys e he))
    (fun e he => Nat.lt_succ_of_le (hidx e he))
  refine ⟨?_, List.mem_append_left _ hdup,
    List.mem_append_right _ (List.mem_singleton.mpr rfl)⟩
  obtain ⟨os, otki, otr, oix⟩ := st
  simp only at hstore hpk hsave
  subst hstore hpk
  simp only [executeTx, committed, execute, Cognitarium.insert, itemLoad,
    parse_triples, convertTriple, ht, Except.mapError, insertOne, hlim, hsave,
    Nat.add_sub_cancel_left, Response.new, Response.add_attribute]
  rfl

/-- Witness for `duplicate_insert_appends`: re-inserting `rawEx` into
the one-triple store that already persists `tripleEx` under key 1. -/
theorem duplicate_insert_appends_witness :
    executeTx stOne { sender := "owner" } (.InsertData [.ok rawEx]) =
      (.ok { attributes := [("action", "insert"), ("inserted_count", "1")] },
       { stOne with
          store := some { owner := "owner", limits := noLimits, stat := { triples_count := 1 + 1 } },
          tripleKeyIncrement := some (1 + 1),
          triples := stOne.triples ++ [(1 + 1, tripleEx)],
          index := stOne.index ++ [((tripleEx.subject, tripleEx.predicate), 1 + 1)] }) ∧
    (1, tripleEx) ∈ stOne.triples ++ [(1 + 1, tripleEx)] ∧
    (1 + 1, tripleEx) ∈ stOne.triples ++ [(1 + 1, tripleEx)] :=
  duplicate_insert_appends stOne
    { owner := "owner", limits := noLimits, stat := { triples_count := 1 } } 1 1
    { sender := "owner" } rawEx tripleEx rfl rfl rfl (by decide) (by decide)
    (by decide) (by decide)

/-- The store value as bumped by one `insertOne` step: `triples_count`
incremented, everything else unchanged. -/
def bumpCount (s : Store) : Store :=
  { s with stat := { triples_count := s.stat.triples_count + 1 } }

/-- A stream of convertible raw triples that keeps the prospective count
within the `max_triple_count` ceiling (when one is set) is fully
inserted: the counter and count each advance by the batch length. -/
lemma loop_ok_within_limit : ∀ (raws : List RioTriple) (acc : InsertAcc),
    (∀ r ∈ raws, ∃ t, Triple.tryFrom r = .ok t) →
    (∀ max, acc.store.limits.max_triple_count = some max →
        acc.store.stat.triples_count + raws.length ≤ max) →
    ∃ acc', parse_triples (raws.map Except.ok) convertTriple insertOne acc =
        (.ok (), acc') ∧
      acc'.pk = acc.pk + raws.length ∧
      acc'.store.stat.triples_count = acc.store.stat.triples_count + raws.length ∧
      acc'.store.owner = acc.store.owner ∧
      acc'.store.limits = acc.store.limits := by
  intro raws
  induction raws with
  | nil =>
    intro acc hconv hlim
    exact ⟨acc, rfl, rfl, rfl, rfl, rfl⟩
  | cons r rest ih =>
    intro acc hconv hlim
    obtain ⟨t, ht⟩ := hconv r (by simp)
    have hstep : insertOne acc (convertTriple r) =
        (.ok (), { pk := acc.pk + 1, store := bumpCount acc.store,
                   storage := triplesSave (acc.pk + 1) t acc.storage }) := by
      rcases hmt : acc.store.limits.max_triple_count with - | max
      · simp [insertOne, convertTriple, ht, Except.mapError, hmt, bumpCount]
      · have hno : ¬ max < acc.store.stat.triples_count + 1 := by
          have := hlim max hmt
          simp only [List.length_cons] at this
          omega
        simp [insertOne, convertTriple, ht, Except.mapError, hmt, hno, bumpCount]
    have h1 : parse_triples ((r :: rest).map Except.ok) convertTriple insertOne acc =
        parse_triples (rest.map Except.ok) convertTriple insertOne
          { pk := acc.pk + 1, store := bumpCount acc.store,
            storage := triplesSave (acc.pk + 1) t acc.storage } := by
      simp only [List.map_cons, parse_triples, hstep]
    obtain ⟨acc', hp, hpk', hcnt', howner', hlim'⟩ :=
      ih { pk := acc.pk + 1, store := bumpCount acc.store,
           storage := triplesSave (acc.pk + 1) t acc.storage }
        (fun r2 hr2 => hconv r2 (by simp [hr2]))
        (fun max hmax => by
          have hmax' : acc.store.limits.max_triple_count = some max := hmax
          have hb := hlim max hmax'
          simp only [List.length_cons] at hb
          show acc.store.stat.triples_count + 1 + rest.length ≤ max
          omega)
    refine ⟨acc', by rw [h1]; exact hp, ?_, ?_, ?_, ?_⟩
    · have hp2 : acc'.pk = acc.pk + 1 + rest.length := hpk'
      simp only [hp2, List.length_cons]
      omega
    · have hc2 : acc'.store.stat.triples_count =
          acc.store.stat.triples_count + 1 + rest.length := hcnt'
      simp only [hc2, List.length_cons]
      omega
    · exact howner'
    · exact hlim'

/-- A batch of convertible raw triples whose total would push the count
past a set `max_triple_count` ceiling aborts the loop with
`MaxTriplesLimitExceeded` carrying that ceiling. -/
lemma loop_limit_exceeded : ∀ (raws : List RioTriple) (acc : InsertAcc) (max : Nat),
    (∀ r ∈ raws, ∃ t, Triple.tryFrom r = .ok t) →
    acc.store.limits.max_triple_count = some max →
    acc.store.stat.triples_count ≤ max →
    max < acc.store.stat.triples_count + raws.length →
    ∃ acc2, parse_triples (raws.map Except.ok) convertTriple insertOne acc =
      (.error (.Store (.MaxTriplesLimitExceeded max)), acc2) := by
  intro raws
  induction raws with
  | nil =>
    intro acc max hconv hmt hle hgt
    exact absurd hgt (by simpa using Nat.not_lt.mpr hle)
  | cons r rest ih =>
    intro acc max hconv hmt hle hgt
    obtain ⟨t, ht⟩ := hconv r (by simp)
    by_cases hcase : max < acc.store.stat.triples_count + 1
    · have hstep : insertOne acc (convertTriple r) =
          (.error (.Store (.MaxTriplesLimitExceeded max)),
           { pk := acc.pk + 1, store := bumpCount acc.store, storage := acc.storage }) := by
        simp [insertOne, convertTriple, ht, Except.mapError, hmt, hcase, bumpCount]
      refine ⟨{ pk := acc.pk + 1, store := bumpCount acc.store, storage := acc.storage }, ?_⟩
      simp only [List.map_cons, parse_triples, hstep]
    · have hstep : insertOne acc (convertTriple r) =
          (.ok (), { pk := acc.pk + 1, store := bumpCount acc.store,
                     storage := triplesSave (acc.pk + 1) t acc.storage }) := by
        simp [insertOne, convertTriple, ht, Except.mapError, hmt, hcase, bumpCount]
      have h1 : parse_triples ((r :: rest).map Except.ok) convertTriple insertOne acc =
          parse_triples (rest.map Except.ok) convertTriple insertOne
            { pk := acc.pk + 1, store := bumpCount acc.store,
              storage := triplesSave (acc.pk + 1) t acc.storage } := by
        simp only [List.map_cons, parse_triples, hstep]
      obtain ⟨acc2, hp⟩ :=
        ih { pk := acc.pk + 1, store := bumpCount acc.store,
             storage := triplesSave (acc.pk + 1) t acc.storage } max
        (fun r2 hr2 => hconv r2 (by simp [hr2]))
        hmt
        (show acc.store.stat.triples_count + 1 ≤ max from Nat.not_lt.mp hcase)
        (by
          simp only [List.length_cons] at hgt
          show max < acc.store.stat.triples_count + 1 + rest.length
          omega)
      exact ⟨acc2, by rw [h1]; exact hp⟩

/-- C4: with `max_triple_count = N`, a one-triple batch taken from
`triples_count = N - 1` succeeds and commits `triples_count = N`, while
any convertible batch whose length would push the count past `N` fails
with `MaxTriplesLimitExceeded N` and commits the prior state
unchanged. -/
theorem max_triple_count_boundary (st : StorageState) (s : Store) (pk N : Nat)
    (info : MessageInfo) (raws : List RioTriple)
    (hstore : st.store = some s) (hpk : st.tripleKeyIncrement = some pk)
    (hmax : s.limits.max_triple_count = some N)
    (hconv : ∀ r ∈ raws, ∃ t, Triple.tryFrom r = .ok t)
    (hbefore : s.stat.triples_count = N - 1) (hNpos : 0 < N) :
    (raws.length = 1 →
      ∃ r st2 s2, executeTx st info (.InsertData (raws.map Except.ok)) = (.ok r, st2) ∧
        st2.store = some s2 ∧ s2.stat.triples_count = N) ∧
    (N < s.stat.triples_count + raws.length →
      executeTx st info (.InsertData (raws.map Except.ok)) =
        (.error (.Store (.MaxTriplesLimitExceeded N)), st)) := by
  constructor
  · intro hlen
    obtain ⟨acc', hp, hpk', hcnt', howner', hlim'⟩ :=
      loop_ok_within_limit raws { pk := pk, store := s, storage := st } hconv
        (fun mx hmx => by
          have hmx' : s.limits.max_triple_count = some mx := hmx
          rw [hmax] at hmx'
          injection hmx' with h1
          show s.stat.triples_count + raws.length ≤ mx
          omega)
    have hexec : executeTx st info (.InsertData (raws.map Except.ok)) =
        (.ok ((Response.new.add_attribute "action" "insert").add_attribute
            "inserted_count"
            (toString (acc'.store.stat.triples_count - s.stat.triples_count))),
         { acc'.storage with
            tripleKeyIncrement := some acc'.pk, store := some acc'.store }) := by
      simp only [executeTx, execute, Cognitarium.insert, itemLoad, hstore, hpk, hp,
        committed]
    refine ⟨_, _, acc'.store, hexec, rfl, ?_⟩
    have hc : acc'.store.stat.triples_count = s.stat.triples_count + raws.length := hcnt'
    rw [hc]
    omega
  · intro hover
    obtain ⟨acc2, hp⟩ := loop_limit_exceeded raws { pk := pk, store := s, storage := st }
      N hconv hmax (show s.stat.triples_count ≤ N by omega) hover
    simp only [executeTx, execute, Cognitarium.insert, itemLoad, hstore, hpk, hp,
      committed]

/-- Store limits with `max_triple_count = 1` and every other ceiling
unset. -/
def capOne : StoreLimits := ⟨some 1, none, none, none, none, none, none⟩

/-- Storage instantiated by `"owner"` with `capOne`. -/
def stCap : StorageState :=
  { store := some (Store.new "owner" capOne), tripleKeyIncrement := some 0,
    triples := [], index := [] }

/-- Witness for `max_triple_count_boundary` at `N = 1`: a one-triple
batch from count 0 reaches exactly the ceiling and succeeds; a
two-triple batch would exceed it and fails with the ceiling in the
error, committing nothing. -/
theorem max_triple_count_boundary_witness :
    (∃ r st2 s2,
        executeTx stCap { sender := "owner" } (.InsertData ([rawEx].map Except.ok)) =
          (.ok r, st2) ∧ st2.store = some s2 ∧ s2.stat.triples_count = 1) ∧
    executeTx stCap { sender := "owner" } (.InsertData ([rawEx, rawEx].map Except.ok)) =
      (.error (.Store (.MaxTriplesLimitExceeded 1)), stCap) :=
  ⟨(max_triple_count_boundary stCap (Store.new "owner" capOne) 0 1
      { sender := "owner" } [rawEx] rfl rfl rfl
      (by intro r hr; rw [List.mem_singleton] at hr; subst hr; exact ⟨tripleEx, by decide⟩)
      (by decide) (by decide)).1 rfl,
   (max_triple_count_boundary stCap (Store.new "owner" capOne) 0 1
      { sender := "owner" } [rawEx, rawEx] rfl rfl rfl
      (by intro r hr
          rcases List.mem_cons.mp hr with rfl | hr2
          · exact ⟨tripleEx, by decide⟩
          · rw [List.mem_singleton] at hr2
            subst hr2
            exact ⟨tripleEx, by decide⟩)
      (by decide) (by decide)).2 (by decide)⟩

end Cognitarium
